import Mathlib

/-!
# Verification of `pytorch_lightning.metrics.functional.regression`

A shallow embedding of the regression / image-similarity metrics module
(`mse`, `rmse`, `mae`, `rmsle`, `psnr`, `_gaussian_kernel`, `ssim`) and proofs
of the specified properties.

Modelling conventions:
* Tensor values are exact rationals (`ℚ`); the claims under study are
  exact-arithmetic identities, validation behaviour and metadata facts.
* The transcendental primitives of the external array engine (`exp`, `log`,
  `sqrt`) are taken as explicit function parameters (`rexp`, `rlog`, `rsqrt`);
  every theorem quantifies over them, so nothing depends on their actual value
  beyond stated hypotheses (e.g. positivity of `exp`).
* The elementwise metrics operate on flattened same-length value lists; the
  SSIM pipeline operates on a 4-D tensor type carrying shape, dtype and device
  metadata.
* Python dicts returned under `return_state` are association lists
  `List (String × ℚ)`; a function that either raises or returns is
  `Except MErr _`.
-/

/-- Tensor element dtypes (the metadata the module inspects). -/
inductive DType
  | float16
  | float32
  | float64
deriving DecidableEq, Repr

/-- Reduction modes, the closed variant of the string argument
(`'elementwise_mean' | 'sum' | 'none'`, spec section 4.1 / 9). -/
inductive Reduction
  | elementwise_mean
  | sum
  | none
deriving DecidableEq, Repr

/-- Result of a metric call: either a tensor of values (flattened) or, under
`return_state=True`, a dict of named scalars. -/
inductive MOut
  | out (t : List ℚ)
  | state (d : List (String × ℚ))
deriving DecidableEq, Repr

/-- Modelled from the spec: `reduce` lives in
`pytorch_lightning.metrics.functional.reduction`, which is not part of the
sources under verification; spec section 4.1 gives its contract:
`elementwise_mean` is the arithmetic mean over all elements (a scalar, here a
one-element list), `sum` the sum over all elements, `none` the identity. -/
def reduce (x : List ℚ) (reduction : Reduction) : List ℚ :=
  match reduction with
  | .elementwise_mean => [x.sum / (x.length : ℚ)]
  | .sum => [x.sum]
  | .none => x

/-- `F.mse_loss(pred, target, reduction='none')`: elementwise squared error. -/
def mseLossNone (pred target : List ℚ) : List ℚ :=
  List.zipWith (fun p t => (p - t) ^ 2) pred target

/-- `F.l1_loss(pred, target, reduction='none')`: elementwise absolute error. -/
def l1LossNone (pred target : List ℚ) : List ℚ :=
  List.zipWith (fun p t => |p - t|) pred target

/-- `mse` from the source: computes the elementwise squared error; under
`return_state` returns `{'squared_error': e.sum(), 'n_observations': e.numel()}`
without reducing, otherwise reduces. -/
def mse (pred target : List ℚ) (reduction : Reduction) (return_state : Bool) : MOut :=
  let e := mseLossNone pred target
  if return_state then
    .state [("squared_error", e.sum), ("n_observations", (e.length : ℚ))]
  else
    .out (reduce e reduction)

/-- `rmse` from the source: computes `mse(pred, target, reduction=reduction)`
(with `return_state=False` internally), then under `return_state` returns the
state of the *already reduced* tensor, otherwise its elementwise square root.
`rsqrt` stands for the engine primitive `torch.sqrt`. -/
def rmse (rsqrt : ℚ → ℚ) (pred target : List ℚ) (reduction : Reduction)
    (return_state : Bool) : MOut :=
  match mse pred target reduction false with
  | .out m =>
    if return_state then
      .state [("squared_error", m.sum), ("n_observations", (m.length : ℚ))]
    else
      .out (m.map rsqrt)
  | .state d => .state d

/-- `mae` from the source: elementwise absolute error, state key
`absolute_error`. -/
def mae (pred target : List ℚ) (reduction : Reduction) (return_state : Bool) : MOut :=
  let e := l1LossNone pred target
  if return_state then
    .state [("absolute_error", e.sum), ("n_observations", (e.length : ℚ))]
  else
    .out (reduce e reduction)

/-- `rmsle` from the source: `rmse(log(pred + 1), log(target + 1), reduction)`.
`rlog` stands for the engine primitive `torch.log`. -/
def rmsle (rsqrt rlog : ℚ → ℚ) (pred target : List ℚ) (reduction : Reduction) : MOut :=
  rmse rsqrt (pred.map (fun x => rlog (x + 1))) (target.map (fun x => rlog (x + 1)))
    reduction false

/-- `l.max()` of the engine on a flattened nonempty tensor (junk `0` when
empty, where the engine would raise). -/
def listMax (l : List ℚ) : ℚ := l.foldl max (l.headD 0)

/-- `l.min()` of the engine on a flattened nonempty tensor. -/
def listMin (l : List ℚ) : ℚ := l.foldl min (l.headD 0)

/-- `psnr` from the source: derives `data_range` from `target` alone when not
supplied, then either returns the PSNR state dict or the log-domain formula
`(2·log(data_range) − log(mse_score)) · (10 / log(base))` applied to the
(already reduced) `mse_score` of the flattened inputs. -/
def psnr (rlog : ℚ → ℚ) (pred target : List ℚ) (data_range : Option ℚ) (base : ℚ)
    (reduction : Reduction) (return_state : Bool) : MOut :=
  let dr : ℚ :=
    match data_range with
    | Option.none => listMax target - listMin target
    | Option.some v => v
  if return_state then
    .state [("data_range", dr),
            ("sum_squared_error", (mseLossNone pred target).sum),
            ("n_obs", (target.length : ℚ))]
  else
    match mse pred target reduction false with
    | .out m => .out (m.map (fun s => (2 * rlog dr - rlog s) * (10 / rlog base)))
    | .state d => .state d

/-- A 4-D tensor of the external array engine: shape metadata (a general shape
list, so rank validation is meaningful), dtype, device index, and a total
valuation of the (row-major) coordinates; values outside the shape are junk
and never observed. -/
structure Tensor where
  shape : List ℕ
  dtype : DType
  device : ℕ
  data : ℕ → ℕ → ℕ → ℕ → ℚ

/-- `t.size(i)` of the engine. -/
def Tensor.size (t : Tensor) (i : ℕ) : ℕ := t.shape.getD i 0

/-- All elements of a (rank-4) tensor in row-major order. -/
def Tensor.elems (t : Tensor) : List ℚ :=
  (List.range (t.size 0)).flatMap fun n =>
    (List.range (t.size 1)).flatMap fun c =>
      (List.range (t.size 2)).flatMap fun i =>
        (List.range (t.size 3)).map fun j => t.data n c i j

/-- `t.max()` of the engine. -/
def tmax (t : Tensor) : ℚ := listMax t.elems

/-- `t.min()` of the engine. -/
def tmin (t : Tensor) : ℚ := listMin t.elems

/-- Elementwise unary map on a tensor (shape/dtype/device preserved). -/
def tmap (f : ℚ → ℚ) (t : Tensor) : Tensor :=
  { t with data := fun n c i j => f (t.data n c i j) }

/-- Elementwise binary operation on two same-shape tensors (metadata of the
first operand, as the engine's broadcasting does for equal shapes). -/
def tmap2 (f : ℚ → ℚ → ℚ) (a b : Tensor) : Tensor :=
  { a with data := fun n c i j => f (a.data n c i j) (b.data n c i j) }

/-- Elementwise product `a * b`. -/
def tmul (a b : Tensor) : Tensor := tmap2 (fun x y => x * y) a b

/-- Elementwise sum `a + b`. -/
def tadd (a b : Tensor) : Tensor := tmap2 (fun x y => x + y) a b

/-- Elementwise difference `a - b`. -/
def tsub (a b : Tensor) : Tensor := tmap2 (fun x y => x - y) a b

/-- Batch-dimension lookup of `torch.cat(ts)` (dim 0): walk the segments. -/
def catData : List Tensor → ℕ → ℕ → ℕ → ℕ → ℚ
  | [], _, _, _, _ => 0
  | t :: ts, n, c, i, j =>
    if n < t.size 0 then t.data n c i j else catData ts (n - t.size 0) c i j

/-- `torch.cat(ts)` along the batch dimension. -/
def catB (ts : List Tensor) : Tensor :=
  { shape := (ts.map (fun u => u.size 0)).sum ::
      (ts.headD ⟨[], .float32, 0, fun _ _ _ _ => 0⟩).shape.drop 1,
    dtype := (ts.headD ⟨[], .float32, 0, fun _ _ _ _ => 0⟩).dtype,
    device := (ts.headD ⟨[], .float32, 0, fun _ _ _ _ => 0⟩).device,
    data := catData ts }

/-- `outputs[start : start + len]`: a contiguous batch-dimension slice. -/
def sliceB (t : Tensor) (start len : ℕ) : Tensor :=
  { shape := len :: t.shape.drop 1, dtype := t.dtype, device := t.device,
    data := fun n c i j => t.data (start + n) c i j }

/-- Modelled from the spec: the external grouped 2-D convolution primitive
(`F.conv2d`, spec section 6: "grouped 2D convolution, no padding, stride 1"),
in the depthwise form the module uses (`groups = channel`, kernel shape
`(channel, 1, kh, kw)`): each output channel convolves only its own input
channel with its own kernel slice. -/
def conv2d (input kernel : Tensor) (_groups : ℕ) : Tensor :=
  { shape := [input.size 0, kernel.size 0,
      input.size 2 - kernel.size 2 + 1, input.size 3 - kernel.size 3 + 1],
    dtype := input.dtype, device := input.device,
    data := fun n c i j =>
      ∑ a in Finset.range (kernel.size 2), ∑ b in Finset.range (kernel.size 3),
        input.data n c (i + a) (j + b) * kernel.data c 0 a b }

/-- The inner `_gaussian` helper of `_gaussian_kernel`: `arange` samples on
`[(1-k)/2, (1+k)/2)` step 1, `exp(-x^2 / (2*sigma^2))`, normalized to sum 1.
The source builds it with `dtype=torch.float32`; the dtype is attached when
the kernel tensor is assembled in `gaussianKernel`. -/
def gauss1d (rexp : ℚ → ℚ) (kernel_size : ℤ) (sigma : ℚ) : List ℚ :=
  let gauss : List ℚ :=
    (List.range kernel_size.toNat).map fun i : ℕ => (1 - (kernel_size : ℚ)) / 2 + (i : ℚ)
  let e : List ℚ := gauss.map fun x => rexp (-(x ^ 2) / (2 * sigma ^ 2))
  e.map fun x => x / e.sum

/-- `_gaussian_kernel` from the source: the outer product
`matmul(gaussian_kernel_x.t(), gaussian_kernel_y)` of the two 1-D Gaussians,
`expand`ed over all channels into shape `(channel, 1, kh, kw)`; per the
source's `torch.arange(..., dtype=torch.float32, device=device)` the result
carries dtype `float32` and the given device. -/
def gaussianKernel (rexp : ℚ → ℚ) (channel : ℕ) (kernel_size : List ℤ)
    (sigma : List ℚ) (device : ℕ) : Tensor :=
  let gaussian_kernel_x := gauss1d rexp (kernel_size.getD 0 0) (sigma.getD 0 0)
  let gaussian_kernel_y := gauss1d rexp (kernel_size.getD 1 0) (sigma.getD 1 0)
  { shape := [channel, 1, (kernel_size.getD 0 0).toNat, (kernel_size.getD 1 0).toNat],
    dtype := .float32, device := device,
    data := fun _ _ a b => gaussian_kernel_x.getD a 0 * gaussian_kernel_y.getD b 0 }

/-- Error taxonomy of the spec (section 7); the source raises `TypeError` for
the dtype check and `ValueError` for shape/rank/config checks. -/
inductive MErr
  | typeMismatch
  | shapeMismatch
  | rankError
  | configError
deriving DecidableEq, Repr

/-- `torch.cat([pred, target, pred*pred, target*target, pred*target])`. -/
def ssimInput (pred target : Tensor) : Tensor :=
  catB [pred, target, tmul pred pred, tmul target target, tmul pred target]

/-- `output_list[x]` of the source: slice `x` of length `pred.size(0)` of the
grouped convolution of the stacked input with the Gaussian kernel bank. -/
def ssimOut (rexp : ℚ → ℚ) (pred target : Tensor) (kernel_size : List ℤ)
    (sigma : List ℚ) (x : ℕ) : Tensor :=
  sliceB
    (conv2d (ssimInput pred target)
      (gaussianKernel rexp (pred.size 1) kernel_size sigma pred.device)
      (pred.size 1))
    (x * pred.size 0) (pred.size 0)

/-- The per-pixel SSIM map of the source, with stability constants `C1v`,
`C2v` already computed from `k1`, `k2` and the data range. -/
def ssimIdx (rexp : ℚ → ℚ) (pred target : Tensor) (kernel_size : List ℤ)
    (sigma : List ℚ) (C1v C2v : ℚ) : Tensor :=
  let mu_pred_sq := tmap (fun v => v ^ 2) (ssimOut rexp pred target kernel_size sigma 0)
  let mu_target_sq := tmap (fun v => v ^ 2) (ssimOut rexp pred target kernel_size sigma 1)
  let mu_pred_target := tmul (ssimOut rexp pred target kernel_size sigma 0)
    (ssimOut rexp pred target kernel_size sigma 1)
  let sigma_pred_sq := tsub (ssimOut rexp pred target kernel_size sigma 2) mu_pred_sq
  let sigma_target_sq := tsub (ssimOut rexp pred target kernel_size sigma 3) mu_target_sq
  let sigma_pred_target := tsub (ssimOut rexp pred target kernel_size sigma 4) mu_pred_target
  let upper := tmap (fun v => 2 * v + C2v) sigma_pred_target
  let lower := tmap (fun v => v + C2v) (tadd sigma_pred_sq sigma_target_sq)
  tmap2 (fun a b => a / b)
    (tmul (tmap (fun v => 2 * v + C1v) mu_pred_target) upper)
    (tmul (tmap (fun v => v + C1v) (tadd mu_pred_sq mu_target_sq)) lower)

/-- `data_range` derivation of `ssim`:
`max(pred.max()-pred.min(), target.max()-target.min())` when not supplied. -/
def ssimDataRange (pred target : Tensor) (data_range : Option ℚ) : ℚ :=
  match data_range with
  | Option.none => max (tmax pred - tmin pred) (tmax target - tmin target)
  | Option.some v => v

/-- `ssim` from the source: the six fail-fast validation checks, then the
Gaussian-windowed local-statistics similarity map, reduced. -/
def ssim (rexp : ℚ → ℚ) (pred target : Tensor) (kernel_size : List ℤ)
    (sigma : List ℚ) (reduction : Reduction) (data_range : Option ℚ)
    (k1 k2 : ℚ) : Except MErr (List ℚ) :=
  if pred.dtype ≠ target.dtype then .error .typeMismatch
  else if pred.shape ≠ target.shape then .error .shapeMismatch
  else if pred.shape.length ≠ 4 ∨ target.shape.length ≠ 4 then .error .rankError
  else if kernel_size.length ≠ 2 ∨ sigma.length ≠ 2 then .error .configError
  else if ∃ x ∈ kernel_size, x % 2 = 0 ∨ x ≤ 0 then .error .configError
  else if ∃ y ∈ sigma, y ≤ 0 then .error .configError
  else
    let dr := ssimDataRange pred target data_range
    .ok (reduce
      (ssimIdx rexp pred target kernel_size sigma ((k1 * dr) ^ 2) ((k2 * dr) ^ 2)).elems
      reduction)

/-- C9: for `mse` and `mae`, the state returned under `return_state=True` is
the same for every value of the `reduction` argument: the state dict is built
from the unreduced elementwise error before `reduce` is ever consulted. -/
theorem mse_mae_state_ignores_reduction (pred target : List ℚ) (r1 r2 : Reduction) :
    mse pred target r1 true = mse pred target r2 true ∧
    mae pred target r1 true = mae pred target r2 true :=
  ⟨rfl, rfl⟩

/-- C6: for every reduction mode other than `none`, `rmse` returns exactly the
elementwise square root of what `mse` returns at the same reduction — the
square root is applied strictly after the reduction. -/
theorem rmse_is_sqrt_after_reduction (rsqrt : ℚ → ℚ) (pred target : List ℚ)
    (red : Reduction) (_hred : red ≠ Reduction.none) (m : List ℚ)
    (hm : mse pred target red false = MOut.out m) :
    rmse rsqrt pred target red false = MOut.out (m.map rsqrt) := by
  have hm' : reduce (mseLossNone pred target) red = m := by
    have : MOut.out (reduce (mseLossNone pred target) red) = MOut.out m := hm
    exact MOut.out.inj this
  simp [rmse, mse, hm']

/-- Witness for C6 at `pred=[0,1]`, `target=[0,0]`, `reduction=sum`. -/
theorem rmse_is_sqrt_after_reduction_witness :
    (Reduction.sum ≠ Reduction.none ∧
      mse [0, 1] [0, 0] Reduction.sum false = MOut.out [1]) ∧
    rmse id [0, 1] [0, 0] Reduction.sum false = MOut.out ([1].map id) :=
  ⟨⟨by decide, by norm_num [mse, mseLossNone, reduce]⟩,
    rmse_is_sqrt_after_reduction id [0, 1] [0, 0] Reduction.sum (by decide) [1]
      (by norm_num [mse, mseLossNone, reduce])⟩

/-- C7: `rmse(..., return_state=True)` returns the state of the *already
reduced* value `m = mse(pred, target, reduction)` — `{squared_error: sum(m),
n_observations: count(m)}` — and in particular under `elementwise_mean` the
reported `n_observations` is `1`, not the element count. -/
theorem rmse_state_of_reduced (rsqrt : ℚ → ℚ) (pred target : List ℚ)
    (red : Reduction) (m : List ℚ)
    (hm : mse pred target red false = MOut.out m) :
    rmse rsqrt pred target red true =
      MOut.state [("squared_error", m.sum), ("n_observations", (m.length : ℚ))] ∧
      (red = Reduction.elementwise_mean → (m.length : ℚ) = 1) := by
  have hm' : reduce (mseLossNone pred target) red = m := by
    have : MOut.out (reduce (mseLossNone pred target) red) = MOut.out m := hm
    exact MOut.out.inj this
  constructor
  · simp [rmse, mse, hm']
  · intro h
    rw [← hm', h]
    simp [reduce]

/-- Witness for C7 at `pred=[0,1,2]`, `target=[0,0,0]`,
`reduction=elementwise_mean` (the reduced value is `[5/3]`, so the reported
observation count is `1`). -/
theorem rmse_state_of_reduced_witness :
    mse [0, 1, 2] [0, 0, 0] Reduction.elementwise_mean false = MOut.out [5 / 3] ∧
    (rmse id [0, 1, 2] [0, 0, 0] Reduction.elementwise_mean true =
      MOut.state [("squared_error", List.sum [5 / 3]),
        ("n_observations", (List.length (α := ℚ) [5 / 3] : ℚ))] ∧
      (Reduction.elementwise_mean = Reduction.elementwise_mean →
        (List.length (α := ℚ) [5 / 3] : ℚ) = 1)) :=
  ⟨by norm_num [mse, mseLossNone, reduce],
    rmse_state_of_reduced id [0, 1, 2] [0, 0, 0] Reduction.elementwise_mean [5 / 3]
      (by norm_num [mse, mseLossNone, reduce])⟩

/-- The elementwise squared error distributes over a partition of the data
into two aligned segments. -/
theorem mseLossNone_append (p1 t1 p2 t2 : List ℚ) (h1 : p1.length = t1.length) :
    mseLossNone (p1 ++ p2) (t1 ++ t2) = mseLossNone p1 t1 ++ mseLossNone p2 t2 := by
  simp [mseLossNone, List.zipWith_append _ _ _ _ _ h1]

/-- C2: combining the `return_state` fields of `mse` over two disjoint
partitions by elementwise summation and dividing
`squared_error / n_observations` gives exactly
`mse(pred_full, target_full, reduction='elementwise_mean')`. -/
theorem mse_state_partition_combine (p1 t1 p2 t2 : List ℚ) (r1 r2 : Reduction)
    (h1 : p1.length = t1.length) (_h2 : p2.length = t2.length) (s1 n1 s2 n2 : ℚ)
    (hs1 : mse p1 t1 r1 true =
      MOut.state [("squared_error", s1), ("n_observations", n1)])
    (hs2 : mse p2 t2 r2 true =
      MOut.state [("squared_error", s2), ("n_observations", n2)]) :
    mse (p1 ++ p2) (t1 ++ t2) Reduction.elementwise_mean false =
      MOut.out [(s1 + s2) / (n1 + n2)] := by
  have base1 : mse p1 t1 r1 true = MOut.state
      [("squared_error", (mseLossNone p1 t1).sum),
       ("n_observations", ((mseLossNone p1 t1).length : ℚ))] := rfl
  have base2 : mse p2 t2 r2 true = MOut.state
      [("squared_error", (mseLossNone p2 t2).sum),
       ("n_observations", ((mseLossNone p2 t2).length : ℚ))] := rfl
  have l1 := MOut.state.inj (base1.symm.trans hs1)
  have l2 := MOut.state.inj (base2.symm.trans hs2)
  simp only [List.cons.injEq, Prod.mk.injEq, true_and, and_true] at l1 l2
  obtain ⟨he1, hn1⟩ := l1
  obtain ⟨he2, hn2⟩ := l2
  simp only [mse, reduce, mseLossNone_append p1 t1 p2 t2 h1, List.sum_append,
    List.length_append, Bool.false_eq_true, if_false]
  rw [← he1, ← he2, ← hn1, ← hn2]
  push_cast
  rfl

/-- Witness for C2 at `pred = [0,1] ++ [2,3]`, `target = [0,0] ++ [2,2]`. -/
theorem mse_state_partition_combine_witness :
    (mse [0, 1] [0, 0] Reduction.sum true =
      MOut.state [("squared_error", 1), ("n_observations", 2)] ∧
     mse [2, 3] [2, 2] Reduction.none true =
      MOut.state [("squared_error", 1), ("n_observations", 2)]) ∧
    mse ([0, 1] ++ [2, 3]) ([0, 0] ++ [2, 2]) Reduction.elementwise_mean false =
      MOut.out [((1 : ℚ) + 1) / ((2 : ℚ) + 2)] :=
  ⟨⟨by norm_num [mse, mseLossNone], by norm_num [mse, mseLossNone]⟩,
    mse_state_partition_combine [0, 1] [0, 0] [2, 3] [2, 2] Reduction.sum Reduction.none
      (by decide) (by decide) 1 2 1 2
      (by norm_num [mse, mseLossNone]) (by norm_num [mse, mseLossNone])⟩

/-- C8: with `data_range` unspecified, `psnr` derives it from `target` alone
(`max(target) - min(target)`), and the whole result is invariant under any
replacement of `pred` that keeps the elementwise squared error (and the
element count) unchanged — in both the value and the `return_state` shape. -/
theorem psnr_auto_data_range_target_only (rlog : ℚ → ℚ) (pred pred' target : List ℚ)
    (base : ℚ) (red : Reduction) (rs : Bool)
    (_hlen : pred.length = pred'.length)
    (hsq : mseLossNone pred target = mseLossNone pred' target) :
    psnr rlog pred target Option.none base red rs =
        psnr rlog pred' target Option.none base red rs ∧
      psnr rlog pred target Option.none base red true =
        MOut.state [("data_range", listMax target - listMin target),
          ("sum_squared_error", (mseLossNone pred target).sum),
          ("n_obs", (target.length : ℚ))] := by
  constructor
  · simp [psnr, mse, hsq]
  · rfl

/-- Witness for C8 at `pred=[0,3]`, `pred'=[2,5]`, `target=[1,4]` (both preds
have squared error `[1,1]` against the target). -/
theorem psnr_auto_data_range_target_only_witness :
    (List.length (α := ℚ) [0, 3] = List.length (α := ℚ) [2, 5] ∧
      mseLossNone [0, 3] [1, 4] = mseLossNone [2, 5] [1, 4]) ∧
    (psnr id [0, 3] [1, 4] Option.none 10 Reduction.elementwise_mean false =
        psnr id [2, 5] [1, 4] Option.none 10 Reduction.elementwise_mean false ∧
      psnr id [0, 3] [1, 4] Option.none 10 Reduction.elementwise_mean true =
        MOut.state [("data_range", listMax [1, 4] - listMin [1, 4]),
          ("sum_squared_error", (mseLossNone [0, 3] [1, 4]).sum),
          ("n_obs", (List.length (α := ℚ) [1, 4] : ℚ))]) :=
  ⟨⟨by decide, by norm_num [mseLossNone]⟩,
    psnr_auto_data_range_target_only id [0, 3] [2, 5] [1, 4] 10
      Reduction.elementwise_mean false (by decide) (by norm_num [mseLossNone])⟩

/-- Summing a list through in-range `getD` lookups gives the list sum. -/
theorem sum_range_getD (l : List ℚ) :
    ∑ a in Finset.range l.length, l.getD a 0 = l.sum := by
  induction l with
  | nil => simp
  | cons x xs ih =>
    rw [List.length_cons, Finset.sum_range_succ', List.sum_cons, add_comm x xs.sum]
    simp only [List.getD_cons_succ, List.getD_cons_zero]
    rw [ih]

/-- Dividing every list element by a constant divides the sum. -/
theorem sum_map_div (l : List ℚ) (r : ℚ) :
    (l.map (fun x => x / r)).sum = l.sum / r := by
  induction l with
  | nil => simp
  | cons x xs ih => simp [ih, add_div]

/-- The normalized 1-D Gaussian has one sample per `arange` step. -/
theorem gauss1d_length (rexp : ℚ → ℚ) (k : ℤ) (s : ℚ) :
    (gauss1d rexp k s).length = k.toNat := by
  simp only [gauss1d, List.length_map, List.length_range]

/-- The unnormalized Gaussian sample sum is positive when the exponential is
positive and the window is nonempty. -/
theorem gaussE_sum_pos (rexp : ℚ → ℚ) (hrexp : ∀ q, 0 < rexp q) (k : ℤ)
    (hk : 0 < k) (s : ℚ) :
    0 < (((List.range k.toNat).map fun i : ℕ => (1 - (k : ℚ)) / 2 + (i : ℚ)).map
      fun x => rexp (-(x ^ 2) / (2 * s ^ 2))).sum := by
  apply List.sum_pos
  · intro z hz
    obtain ⟨g, _, rfl⟩ := List.mem_map.mp hz
    exact hrexp _
  · have hne : k.toNat ≠ 0 := by omega
    simp [List.map_eq_nil_iff, List.range_eq_nil, hne]

/-- With a positive exponential, every normalized 1-D Gaussian sample is
positive. -/
theorem gauss1d_pos (rexp : ℚ → ℚ) (hrexp : ∀ q, 0 < rexp q) (k : ℤ) (hk : 0 < k)
    (s : ℚ) : ∀ x ∈ gauss1d rexp k s, 0 < x := by
  intro x hx
  simp only [gauss1d] at hx
  obtain ⟨y, hy, rfl⟩ := List.mem_map.mp hx
  refine div_pos ?_ (gaussE_sum_pos rexp hrexp k hk s)
  obtain ⟨g, _, rfl⟩ := List.mem_map.mp hy
  exact hrexp _

/-- With a positive exponential, the normalized 1-D Gaussian sums to 1. -/
theorem gauss1d_sum_one (rexp : ℚ → ℚ) (hrexp : ∀ q, 0 < rexp q) (k : ℤ)
    (hk : 0 < k) (s : ℚ) : (gauss1d rexp k s).sum = 1 := by
  simp only [gauss1d]
  rw [sum_map_div]
  exact div_self (ne_of_gt (gaussE_sum_pos rexp hrexp k hk s))

/-- A kernel-bank entry is the product of the two 1-D Gaussian samples
(independently of the channel index: `expand` broadcasts one 2-D kernel). -/
theorem gaussianKernel_data (rexp : ℚ → ℚ) (channel : ℕ) (kh kw : ℤ) (sh sw : ℚ)
    (device : ℕ) (c z a b : ℕ) :
    (gaussianKernel rexp channel [kh, kw] [sh, sw] device).data c z a b =
      (gauss1d rexp kh sh).getD a 0 * (gauss1d rexp kw sw).getD b 0 := rfl

/-- Every in-window kernel-bank entry is positive when the exponential is. -/
theorem gaussianKernel_data_pos (rexp : ℚ → ℚ) (hrexp : ∀ q, 0 < rexp q)
    (channel : ℕ) (kh kw : ℤ) (hkh : 0 < kh) (hkw : 0 < kw) (sh sw : ℚ)
    (device : ℕ) (c z a b : ℕ) (ha : a < kh.toNat) (hb : b < kw.toNat) :
    0 < (gaussianKernel rexp channel [kh, kw] [sh, sw] device).data c z a b := by
  rw [gaussianKernel_data]
  have ha' : a < (gauss1d rexp kh sh).length := by rw [gauss1d_length]; exact ha
  have hb' : b < (gauss1d rexp kw sw).length := by rw [gauss1d_length]; exact hb
  rw [List.getD_eq_getElem _ _ ha', List.getD_eq_getElem _ _ hb']
  exact mul_pos
    (gauss1d_pos rexp hrexp kh hkh sh _ (List.getElem_mem ha'))
    (gauss1d_pos rexp hrexp kw hkw sw _ (List.getElem_mem hb'))

/-- Each channel's 2-D kernel window sums to 1: the double sum factors into
the product of the two unit 1-D sums. -/
theorem gaussianKernel_window_sum_one (rexp : ℚ → ℚ) (hrexp : ∀ q, 0 < rexp q)
    (channel : ℕ) (kh kw : ℤ) (hkh : 0 < kh) (hkw : 0 < kw) (sh sw : ℚ)
    (device : ℕ) (c z : ℕ) :
    ∑ a in Finset.range kh.toNat, ∑ b in Finset.range kw.toNat,
      (gaussianKernel rexp channel [kh, kw] [sh, sw] device).data c z a b = 1 := by
  simp only [gaussianKernel_data]
  rw [← Finset.sum_mul_sum]
  rw [← gauss1d_length rexp kh sh, ← gauss1d_length rexp kw sw,
    sum_range_getD, sum_range_getD,
    gauss1d_sum_one rexp hrexp kh hkh sh, gauss1d_sum_one rexp hrexp kw hkw sw,
    mul_one]

/-- C4: for every channel count `>= 1`, odd positive kernel sizes and positive
sigmas, the Gaussian kernel builder returns a tensor of shape
`(channel, 1, kh, kw)` whose 2-D slices are identical across channels and each
sum to 1. -/
theorem gaussian_kernel_normalized (rexp : ℚ → ℚ) (hrexp : ∀ q, 0 < rexp q)
    (channel : ℕ) (_hch : 1 ≤ channel) (kh kw : ℤ) (_hkhodd : Odd kh)
    (hkh : 0 < kh) (_hkwodd : Odd kw) (hkw : 0 < kw) (sh sw : ℚ) (_hsh : 0 < sh)
    (_hsw : 0 < sw) (device : ℕ) :
    (gaussianKernel rexp channel [kh, kw] [sh, sw] device).shape =
        [channel, 1, kh.toNat, kw.toNat] ∧
      (∀ c c' a b, (gaussianKernel rexp channel [kh, kw] [sh, sw] device).data c 0 a b =
        (gaussianKernel rexp channel [kh, kw] [sh, sw] device).data c' 0 a b) ∧
      ∀ c, ∑ a in Finset.range kh.toNat, ∑ b in Finset.range kw.toNat,
        (gaussianKernel rexp channel [kh, kw] [sh, sw] device).data c 0 a b = 1 := by
  refine ⟨rfl, fun c c' a b => rfl, fun c => ?_⟩
  exact gaussianKernel_window_sum_one rexp hrexp channel kh kw hkh hkw sh sw device c 0

/-- Witness for C4 at `channel=2`, `kernel_size=(3,3)`, `sigma=(1,1)`. -/
theorem gaussian_kernel_normalized_witness :
    ((∀ q : ℚ, 0 < (fun _ : ℚ => (1 : ℚ)) q) ∧ 1 ≤ 2 ∧ Odd (3 : ℤ) ∧ (0 : ℤ) < 3 ∧
      (0 : ℚ) < 1) ∧
    ((gaussianKernel (fun _ : ℚ => (1 : ℚ)) 2 [3, 3] [1, 1] 0).shape =
        [2, 1, (3 : ℤ).toNat, (3 : ℤ).toNat] ∧
      (∀ c c' a b, (gaussianKernel (fun _ : ℚ => (1 : ℚ)) 2 [3, 3] [1, 1] 0).data c 0 a b =
        (gaussianKernel (fun _ : ℚ => (1 : ℚ)) 2 [3, 3] [1, 1] 0).data c' 0 a b) ∧
      ∀ c, ∑ a in Finset.range (3 : ℤ).toNat, ∑ b in Finset.range (3 : ℤ).toNat,
        (gaussianKernel (fun _ : ℚ => (1 : ℚ)) 2 [3, 3] [1, 1] 0).data c 0 a b = 1) :=
  ⟨⟨fun _ => one_pos, by norm_num, ⟨1, by ring⟩, by norm_num, one_pos⟩,
    gaussian_kernel_normalized (fun _ : ℚ => (1 : ℚ)) (fun _ => one_pos) 2 (by norm_num)
      3 3 ⟨1, by ring⟩ (by norm_num) ⟨1, by ring⟩ (by norm_num) 1 1 one_pos one_pos 0⟩

/-- C5: for 4-dimensional `pred`/`target` of equal shape and dtype, `ssim`
raises a configuration error if and only if `kernel_size` or `sigma` has
length other than 2, some `kernel_size` component is even or non-positive, or
some `sigma` component is non-positive. The equivalence holds uniformly in the
tensor data (the theorem never constrains `pred.data`/`target.data`), so a
malformed configuration fails before any computation on the data and no
partial result is produced. -/
theorem ssim_config_error_iff (rexp : ℚ → ℚ) (pred target : Tensor)
    (kernel_size : List ℤ) (sigma : List ℚ) (red : Reduction) (dr : Option ℚ)
    (k1 k2 : ℚ) (hdt : pred.dtype = target.dtype) (hsh : pred.shape = target.shape)
    (h4 : pred.shape.length = 4) :
    ssim rexp pred target kernel_size sigma red dr k1 k2 =
        Except.error MErr.configError ↔
      kernel_size.length ≠ 2 ∨ sigma.length ≠ 2 ∨
        (∃ x ∈ kernel_size, Even x ∨ x ≤ 0) ∨ ∃ y ∈ sigma, y ≤ 0 := by
  have h4t : target.shape.length = 4 := by rw [← hsh]; exact h4
  rw [ssim]
  rw [if_neg (not_not_intro hdt), if_neg (not_not_intro hsh),
    if_neg (by push_neg; exact ⟨h4, h4t⟩)]
  by_cases hlen : kernel_size.length ≠ 2 ∨ sigma.length ≠ 2
  · rw [if_pos hlen]
    exact iff_of_true rfl (hlen.elim Or.inl (fun h => Or.inr (Or.inl h)))
  · rw [if_neg hlen]
    by_cases hker : ∃ x ∈ kernel_size, x % 2 = 0 ∨ x ≤ 0
    · rw [if_pos hker]
      refine iff_of_true rfl (Or.inr (Or.inr (Or.inl ?_)))
      obtain ⟨x, hx, hx2⟩ := hker
      exact ⟨x, hx, hx2.imp Int.even_iff.mpr id⟩
    · rw [if_neg hker]
      by_cases hsig : ∃ y ∈ sigma, y ≤ 0
      · rw [if_pos hsig]
        exact iff_of_true rfl (Or.inr (Or.inr (Or.inr hsig)))
      · rw [if_neg hsig]
        refine iff_of_false (by simp) ?_
        push_neg at hlen hker hsig ⊢
        refine ⟨hlen.1, hlen.2, fun x hx => ?_, hsig⟩
        have := hker x hx
        push_neg at this
        exact ⟨fun he => this.1 (Int.even_iff.mp he), this.2⟩

/-- Witness for C5: a valid 5x1x16x16 float32 pair with the even kernel size
`(10, 10)` (so the claim's biconditional is exercised at a concrete bad
configuration). -/
theorem ssim_config_error_iff_witness :
    ((Tensor.mk [5, 1, 16, 16] DType.float32 0 fun _ _ _ _ => 0).dtype =
        (Tensor.mk [5, 1, 16, 16] DType.float32 0 fun _ _ _ _ => 1).dtype ∧
      (Tensor.mk [5, 1, 16, 16] DType.float32 0 fun _ _ _ _ => 0).shape =
        (Tensor.mk [5, 1, 16, 16] DType.float32 0 fun _ _ _ _ => 1).shape ∧
      (Tensor.mk [5, 1, 16, 16] DType.float32 0 fun _ _ _ _ => 0).shape.length = 4) ∧
    (ssim (fun _ => 1) (Tensor.mk [5, 1, 16, 16] DType.float32 0 fun _ _ _ _ => 0)
        (Tensor.mk [5, 1, 16, 16] DType.float32 0 fun _ _ _ _ => 1)
        [10, 10] [3 / 2, 3 / 2] Reduction.elementwise_mean Option.none (1 / 100) (3 / 100) =
        Except.error MErr.configError ↔
      List.length (α := ℤ) [10, 10] ≠ 2 ∨ List.length (α := ℚ) [3 / 2, 3 / 2] ≠ 2 ∨
        (∃ x ∈ ([10, 10] : List ℤ), Even x ∨ x ≤ 0) ∨
        ∃ y ∈ ([3 / 2, 3 / 2] : List ℚ), y ≤ 0) :=
  ⟨⟨rfl, rfl, rfl⟩,
    ssim_config_error_iff (fun _ => 1)
      (Tensor.mk [5, 1, 16, 16] DType.float32 0 fun _ _ _ _ => 0)
      (Tensor.mk [5, 1, 16, 16] DType.float32 0 fun _ _ _ _ => 1)
      [10, 10] [3 / 2, 3 / 2] Reduction.elementwise_mean Option.none (1 / 100) (3 / 100)
      rfl rfl rfl⟩

/-- C10: the Gaussian kernel is always built with dtype `float32`, whatever
the inputs' dtype; and `ssim`'s validation accepts any matching dtype pair, in
particular `float64` inputs reach the computation with a `float32` kernel. -/
theorem ssim_kernel_always_float32 (rexp : ℚ → ℚ) (pred target : Tensor)
    (kernel_size : List ℤ) (sigma : List ℚ) (red : Reduction) (dr : Option ℚ)
    (k1 k2 : ℚ)
    (hdtp : pred.dtype = DType.float64) (hdtt : target.dtype = DType.float64)
    (hsh : pred.shape = target.shape) (h4 : pred.shape.length = 4)
    (hklen : kernel_size.length = 2) (hslen : sigma.length = 2)
    (hker : ∀ x ∈ kernel_size, ¬(x % 2 = 0 ∨ x ≤ 0))
    (hsig : ∀ y ∈ sigma, ¬(y ≤ 0)) :
    (∀ (c : ℕ) (ks : List ℤ) (ss : List ℚ) (dev : ℕ),
        (gaussianKernel rexp c ks ss dev).dtype = DType.float32) ∧
      ∃ v, ssim rexp pred target kernel_size sigma red dr k1 k2 = Except.ok v := by
  refine ⟨fun c ks ss dev => rfl, ?_⟩
  have h4t : target.shape.length = 4 := by rw [← hsh]; exact h4
  rw [ssim]
  rw [if_neg (not_not_intro (hdtp.trans hdtt.symm)), if_neg (not_not_intro hsh),
    if_neg (by push_neg; exact ⟨h4, h4t⟩),
    if_neg (by push_neg; exact ⟨hklen, hslen⟩),
    if_neg (by push_neg at hker ⊢; exact hker),
    if_neg (by push_neg at hsig ⊢; exact hsig)]
  exact ⟨_, rfl⟩

/-- Witness for C10 with `float64` 1x1x1x1 inputs and the (odd, positive)
kernel size `(1, 1)`. -/
theorem ssim_kernel_always_float32_witness :
    ((Tensor.mk [1, 1, 1, 1] DType.float64 0 fun _ _ _ _ => 0).dtype = DType.float64 ∧
      (List.length (α := ℤ) [1, 1] = 2 ∧
        ∀ x ∈ ([1, 1] : List ℤ), ¬(x % 2 = 0 ∨ x ≤ 0))) ∧
    ((∀ (c : ℕ) (ks : List ℤ) (ss : List ℚ) (dev : ℕ),
        (gaussianKernel (fun _ => 1) c ks ss dev).dtype = DType.float32) ∧
      ∃ v, ssim (fun _ => 1) (Tensor.mk [1, 1, 1, 1] DType.float64 0 fun _ _ _ _ => 0)
        (Tensor.mk [1, 1, 1, 1] DType.float64 0 fun _ _ _ _ => 0)
        [1, 1] [1, 1] Reduction.sum (Option.some 1) 0 0 = Except.ok v) :=
  ⟨⟨rfl, by decide, by decide⟩,
    ssim_kernel_always_float32 (fun _ => 1)
      (Tensor.mk [1, 1, 1, 1] DType.float64 0 fun _ _ _ _ => 0)
      (Tensor.mk [1, 1, 1, 1] DType.float64 0 fun _ _ _ _ => 0)
      [1, 1] [1, 1] Reduction.sum (Option.some 1) 0 0
      rfl rfl rfl rfl rfl rfl (by decide) (by norm_num)⟩

/-- The default (empty) tensor used for out-of-range list lookups. -/
def defaultTensor : Tensor := ⟨[], .float32, 0, fun _ _ _ _ => 0⟩

@[simp] theorem tmap_data (f : ℚ → ℚ) (t : Tensor) (n c i j : ℕ) :
    (tmap f t).data n c i j = f (t.data n c i j) := rfl

@[simp] theorem tmap2_data (f : ℚ → ℚ → ℚ) (a b : Tensor) (n c i j : ℕ) :
    (tmap2 f a b).data n c i j = f (a.data n c i j) (b.data n c i j) := rfl

@[simp] theorem tmul_data (a b : Tensor) (n c i j : ℕ) :
    (tmul a b).data n c i j = a.data n c i j * b.data n c i j := rfl

@[simp] theorem tadd_data (a b : Tensor) (n c i j : ℕ) :
    (tadd a b).data n c i j = a.data n c i j + b.data n c i j := rfl

@[simp] theorem tsub_data (a b : Tensor) (n c i j : ℕ) :
    (tsub a b).data n c i j = a.data n c i j - b.data n c i j := rfl

@[simp] theorem tmap_shape (f : ℚ → ℚ) (t : Tensor) : (tmap f t).shape = t.shape := rfl

@[simp] theorem tmap2_shape (f : ℚ → ℚ → ℚ) (a b : Tensor) :
    (tmap2 f a b).shape = a.shape := rfl

@[simp] theorem tmul_shape (a b : Tensor) : (tmul a b).shape = a.shape := rfl

/-- Congruence for `flatMap` over a fixed list. -/
theorem flatMap_congr {α β : Type} (l : List α) (f g : α → List β)
    (h : ∀ x ∈ l, f x = g x) : l.flatMap f = l.flatMap g := by
  induction l with
  | nil => rfl
  | cons x xs ih =>
    simp only [List.flatMap_cons]
    rw [h x (by simp), ih fun y hy => h y (by simp [hy])]

/-- Two tensors of equal shape whose data agree on all in-range coordinates
enumerate the same elements. -/
theorem elems_congr (t1 t2 : Tensor) (hsh : t1.shape = t2.shape)
    (h : ∀ n c i j, n < t1.size 0 → c < t1.size 1 → i < t1.size 2 → j < t1.size 3 →
      t1.data n c i j = t2.data n c i j) : t1.elems = t2.elems := by
  have hs : ∀ k, t2.size k = t1.size k := fun k => by simp [Tensor.size, hsh]
  unfold Tensor.elems
  rw [hs 0, hs 1, hs 2, hs 3]
  refine flatMap_congr _ _ _ fun n hn => ?_
  refine flatMap_congr _ _ _ fun c hc => ?_
  refine flatMap_congr _ _ _ fun i hi => ?_
  refine List.map_congr_left fun j hj => ?_
  exact h n c i j (List.mem_range.mp hn) (List.mem_range.mp hc)
    (List.mem_range.mp hi) (List.mem_range.mp hj)

/-- Reading `torch.cat(ts)` at batch index `k*B + n` with `n < B` lands in
segment `k` when every segment has batch size `B`. -/
theorem catData_segment (B : ℕ) (ts : List Tensor) (k n c i j : ℕ)
    (hall : ∀ t ∈ ts, t.size 0 = B) (hk : k < ts.length) (hn : n < B) :
    catData ts (k * B + n) c i j = (ts.getD k defaultTensor).data n c i j := by
  induction ts generalizing k with
  | nil => simp at hk
  | cons t rest ih =>
    have ht : t.size 0 = B := hall t (by simp)
    cases k with
    | zero =>
      simp only [Nat.zero_mul, Nat.zero_add, catData, List.getD_cons_zero]
      rw [if_pos (by rw [ht]; exact hn)]
    | succ k' =>
      simp only [catData, List.getD_cons_succ]
      have hge : B ≤ (k' + 1) * B + n :=
        le_trans (Nat.le_mul_of_pos_left B k'.succ_pos) (Nat.le_add_right _ _)
      rw [if_neg (by rw [ht]; omega)]
      rw [show (k' + 1) * B + n - t.size 0 = k' * B + n from by
        rw [ht, Nat.succ_mul]; omega]
      exact ih k' (fun u hu => hall u (List.mem_cons_of_mem t hu)) (by simpa using hk)

/-- `getD` through `drop 1` shifts the index by one. -/
theorem drop_one_getD (l : List ℕ) (k d : ℕ) :
    (l.drop 1).getD k d = l.getD (k + 1) d := by
  cases l with
  | nil => rfl
  | cons x rest => rfl

/-- Shape of each convolution output slice: batch and channel of `pred`, and
spatial dims shrunk by `kernel - 1` (valid convolution, no padding). -/
theorem ssimOut_shape (rexp : ℚ → ℚ) (pred target : Tensor) (ks : List ℤ)
    (σs : List ℚ) (x : ℕ) :
    (ssimOut rexp pred target ks σs x).shape =
      [pred.size 0, pred.size 1,
       pred.size 2 - (ks.getD 0 0).toNat + 1,
       pred.size 3 - (ks.getD 1 0).toNat + 1] := by
  show (pred.size 0 :: [pred.size 1,
      (pred.shape.drop 1).getD 1 0 - (ks.getD 0 0).toNat + 1,
      (pred.shape.drop 1).getD 2 0 - (ks.getD 1 0).toNat + 1] : List ℕ) = _
  rw [drop_one_getD, drop_one_getD]
  rfl

/-- The SSIM map inherits the shape of the first convolution slice. -/
theorem ssimIdx_shape (rexp : ℚ → ℚ) (pred target : Tensor) (ks : List ℤ)
    (σs : List ℚ) (C1v C2v : ℚ) :
    (ssimIdx rexp pred target ks σs C1v C2v).shape =
      [pred.size 0, pred.size 1,
       pred.size 2 - (ks.getD 0 0).toNat + 1,
       pred.size 3 - (ks.getD 1 0).toNat + 1] := by
  show (ssimOut rexp pred target ks σs 0).shape = _
  exact ssimOut_shape rexp pred target ks σs 0

/-- Reading slice `x` of the one-pass grouped convolution at an in-range batch
index gives the windowed sum of the `x`-th stacked tensor against the
separable Gaussian weights. -/
theorem ssimOut_data_eq (rexp : ℚ → ℚ) (pred target : Tensor) (ks : List ℤ)
    (σs : List ℚ) (x : ℕ) (hx : x < 5) (hB : target.size 0 = pred.size 0)
    (n c i j : ℕ) (hn : n < pred.size 0) :
    (ssimOut rexp pred target ks σs x).data n c i j =
      ∑ a in Finset.range (ks.getD 0 0).toNat,
        ∑ b in Finset.range (ks.getD 1 0).toNat,
          ([pred, target, tmul pred pred, tmul target target,
              tmul pred target].getD x defaultTensor).data n c (i + a) (j + b) *
            ((gauss1d rexp (ks.getD 0 0) (σs.getD 0 0)).getD a 0 *
             (gauss1d rexp (ks.getD 1 0) (σs.getD 1 0)).getD b 0) := by
  have hall : ∀ t ∈ [pred, target, tmul pred pred, tmul target target, tmul pred target],
      t.size 0 = pred.size 0 := by
    intro t ht
    simp only [List.mem_cons, List.not_mem_nil, or_false] at ht
    rcases ht with rfl | rfl | rfl | rfl | rfl
    · rfl
    · exact hB
    · rfl
    · exact hB
    · rfl
  show (∑ a in Finset.range (ks.getD 0 0).toNat,
      ∑ b in Finset.range (ks.getD 1 0).toNat,
        catData [pred, target, tmul pred pred, tmul target target, tmul pred target]
          (x * pred.size 0 + n) c (i + a) (j + b) *
          ((gauss1d rexp (ks.getD 0 0) (σs.getD 0 0)).getD a 0 *
           (gauss1d rexp (ks.getD 1 0) (σs.getD 1 0)).getD b 0)) = _
  refine Finset.sum_congr rfl fun a _ => Finset.sum_congr rfl fun b _ => ?_
  rw [catData_segment (pred.size 0) _ x n c (i + a) (j + b) hall (by simpa using hx) hn]

/-- C3: `ssim` is symmetric in its two tensor arguments, for every common
parameter setting — validation treats the pair symmetrically, the derived
`data_range` is a symmetric max, and the per-pixel index is invariant under
exchanging the roles of `pred` and `target`. -/
theorem ssim_symmetric (rexp : ℚ → ℚ) (a b : Tensor) (ks : List ℤ) (σs : List ℚ)
    (red : Reduction) (dr : Option ℚ) (k1 k2 : ℚ) :
    ssim rexp a b ks σs red dr k1 k2 = ssim rexp b a ks σs red dr k1 k2 := by
  simp only [ssim]
  by_cases h1 : a.dtype = b.dtype
  case neg =>
    rw [if_pos h1, if_pos (show b.dtype ≠ a.dtype from fun he => h1 he.symm)]
  rw [if_neg (not_not_intro h1), if_neg (not_not_intro h1.symm)]
  by_cases h2 : a.shape = b.shape
  case neg =>
    rw [if_pos h2, if_pos (show b.shape ≠ a.shape from fun he => h2 he.symm)]
  rw [if_neg (not_not_intro h2), if_neg (not_not_intro h2.symm)]
  by_cases h3 : a.shape.length ≠ 4 ∨ b.shape.length ≠ 4
  case pos =>
    rw [if_pos h3, if_pos h3.symm]
  rw [if_neg h3,
    if_neg (show ¬(b.shape.length ≠ 4 ∨ a.shape.length ≠ 4) from fun hc => h3 hc.symm)]
  by_cases h4 : ks.length ≠ 2 ∨ σs.length ≠ 2
  case pos =>
    rw [if_pos h4, if_pos h4]
  rw [if_neg h4, if_neg h4]
  by_cases h5 : ∃ x ∈ ks, x % 2 = 0 ∨ x ≤ 0
  case pos =>
    rw [if_pos h5, if_pos h5]
  rw [if_neg h5, if_neg h5]
  by_cases h6 : ∃ y ∈ σs, y ≤ 0
  case pos =>
    rw [if_pos h6, if_pos h6]
  rw [if_neg h6, if_neg h6]
  have hdr : ssimDataRange b a dr = ssimDataRange a b dr := by
    cases dr with
    | none => simp only [ssimDataRange]; rw [max_comm]
    | some v => rfl
  rw [hdr]
  have hB1 : b.size 0 = a.size 0 := by simp [Tensor.size, h2]
  have hB2 : a.size 0 = b.size 0 := hB1.symm
  have helems : ∀ C1v C2v : ℚ,
      (ssimIdx rexp a b ks σs C1v C2v).elems = (ssimIdx rexp b a ks σs C1v C2v).elems := by
    intro C1v C2v
    apply elems_congr
    · rw [ssimIdx_shape, ssimIdx_shape]
      simp [Tensor.size, h2]
    · intro n c i j hn _ _ _
      have hs0 : (ssimIdx rexp a b ks σs C1v C2v).size 0 = a.size 0 := by
        simp [Tensor.size, ssimIdx_shape]
      have hn' : n < a.size 0 := hs0 ▸ hn
      have hn'' : n < b.size 0 := hB1.symm ▸ hn'
      simp only [ssimIdx, tmap2_data, tmap_data, tmul_data, tadd_data, tsub_data]
      rw [ssimOut_data_eq rexp a b ks σs 0 (by norm_num) hB1 n c i j hn',
        ssimOut_data_eq rexp a b ks σs 1 (by norm_num) hB1 n c i j hn',
        ssimOut_data_eq rexp a b ks σs 2 (by norm_num) hB1 n c i j hn',
        ssimOut_data_eq rexp a b ks σs 3 (by norm_num) hB1 n c i j hn',
        ssimOut_data_eq rexp a b ks σs 4 (by norm_num) hB1 n c i j hn',
        ssimOut_data_eq rexp b a ks σs 0 (by norm_num) hB2 n c i j hn'',
        ssimOut_data_eq rexp b a ks σs 1 (by norm_num) hB2 n c i j hn'',
        ssimOut_data_eq rexp b a ks σs 2 (by norm_num) hB2 n c i j hn'',
        ssimOut_data_eq rexp b a ks σs 3 (by norm_num) hB2 n c i j hn'',
        ssimOut_data_eq rexp b a ks σs 4 (by norm_num) hB2 n c i j hn'']
      simp only [List.getD_cons_zero, List.getD_cons_succ, tmul_data]
      have hSba : (∑ p in Finset.range (ks.getD 0 0).toNat,
          ∑ q in Finset.range (ks.getD 1 0).toNat,
            b.data n c (i + p) (j + q) * a.data n c (i + p) (j + q) *
              ((gauss1d rexp (ks.getD 0 0) (σs.getD 0 0)).getD p 0 *
               (gauss1d rexp (ks.getD 1 0) (σs.getD 1 0)).getD q 0)) =
          ∑ p in Finset.range (ks.getD 0 0).toNat,
          ∑ q in Finset.range (ks.getD 1 0).toNat,
            a.data n c (i + p) (j + q) * b.data n c (i + p) (j + q) *
              ((gauss1d rexp (ks.getD 0 0) (σs.getD 0 0)).getD p 0 *
               (gauss1d rexp (ks.getD 1 0) (σs.getD 1 0)).getD q 0) := by
        refine Finset.sum_congr rfl fun p _ => Finset.sum_congr rfl fun q _ => ?_
        ring
      rw [hSba]
      congr 1 <;> ring
  rw [helems]

/-- Weighted Cauchy-Schwarz over a window: with nonnegative weights summing to
1, the squared weighted mean is at most the weighted mean of squares (so every
local variance `E[v^2] - E[v]^2` is nonnegative). -/
theorem window_jensen (kh kw : ℕ) (w v : ℕ → ℕ → ℚ)
    (hw : ∀ a ∈ Finset.range kh, ∀ b ∈ Finset.range kw, 0 ≤ w a b)
    (hsum : ∑ a in Finset.range kh, ∑ b in Finset.range kw, w a b = 1) :
    (∑ a in Finset.range kh, ∑ b in Finset.range kw, v a b * w a b) ^ 2 ≤
      ∑ a in Finset.range kh, ∑ b in Finset.range kw, v a b * v a b * w a b := by
  have base : (∑ p in Finset.range kh ×ˢ Finset.range kw, w p.1 p.2 * v p.1 p.2) ^ 2 ≤
      (∑ p in Finset.range kh ×ˢ Finset.range kw, w p.1 p.2) *
        ∑ p in Finset.range kh ×ˢ Finset.range kw, w p.1 p.2 * v p.1 p.2 ^ 2 := by
    apply Finset.sum_sq_le_sum_mul_sum_of_sq_eq_mul
    · intro p hp
      exact hw p.1 (Finset.mem_product.mp hp).1 p.2 (Finset.mem_product.mp hp).2
    · intro p hp
      exact mul_nonneg
        (hw p.1 (Finset.mem_product.mp hp).1 p.2 (Finset.mem_product.mp hp).2)
        (sq_nonneg _)
    · intro p _
      ring
  have hp1 : (∑ p in Finset.range kh ×ˢ Finset.range kw, w p.1 p.2 * v p.1 p.2) =
      ∑ a in Finset.range kh, ∑ b in Finset.range kw, w a b * v a b :=
    Finset.sum_product' (Finset.range kh) (Finset.range kw) fun a b => w a b * v a b
  have hp2 : (∑ p in Finset.range kh ×ˢ Finset.range kw, w p.1 p.2) =
      ∑ a in Finset.range kh, ∑ b in Finset.range kw, w a b :=
    Finset.sum_product' (Finset.range kh) (Finset.range kw) fun a b => w a b
  have hp3 : (∑ p in Finset.range kh ×ˢ Finset.range kw, w p.1 p.2 * v p.1 p.2 ^ 2) =
      ∑ a in Finset.range kh, ∑ b in Finset.range kw, w a b * v a b ^ 2 :=
    Finset.sum_product' (Finset.range kh) (Finset.range kw) fun a b => w a b * v a b ^ 2
  rw [hp1, hp2, hp3] at base
  rw [hsum, one_mul] at base
  have e1 : ∑ a in Finset.range kh, ∑ b in Finset.range kw, v a b * w a b =
      ∑ a in Finset.range kh, ∑ b in Finset.range kw, w a b * v a b := by
    refine Finset.sum_congr rfl fun a _ => Finset.sum_congr rfl fun b _ => ?_
    ring
  have e2 : ∑ a in Finset.range kh, ∑ b in Finset.range kw, v a b * v a b * w a b =
      ∑ a in Finset.range kh, ∑ b in Finset.range kw, w a b * v a b ^ 2 := by
    refine Finset.sum_congr rfl fun a _ => Finset.sum_congr rfl fun b _ => ?_
    ring
  rw [e1, e2]
  exact base

/-- The separable Gaussian weight grid sums to 1. -/
theorem gauss_product_sum_one (rexp : ℚ → ℚ) (hrexp : ∀ q, 0 < rexp q)
    (kh kw : ℤ) (hkh : 0 < kh) (hkw : 0 < kw) (sh sw : ℚ) :
    ∑ a in Finset.range kh.toNat, ∑ b in Finset.range kw.toNat,
      (gauss1d rexp kh sh).getD a 0 * (gauss1d rexp kw sw).getD b 0 = 1 := by
  rw [← Finset.sum_mul_sum]
  rw [← gauss1d_length rexp kh sh, ← gauss1d_length rexp kw sw,
    sum_range_getD, sum_range_getD,
    gauss1d_sum_one rexp hrexp kh hkh sh, gauss1d_sum_one rexp hrexp kw hkw sw,
    mul_one]

/-- Each in-window separable Gaussian weight is positive. -/
theorem gauss_product_pos (rexp : ℚ → ℚ) (hrexp : ∀ q, 0 < rexp q)
    (kh kw : ℤ) (hkh : 0 < kh) (hkw : 0 < kw) (sh sw : ℚ) (a b : ℕ)
    (ha : a < kh.toNat) (hb : b < kw.toNat) :
    0 < (gauss1d rexp kh sh).getD a 0 * (gauss1d rexp kw sw).getD b 0 := by
  have ha' : a < (gauss1d rexp kh sh).length := by rw [gauss1d_length]; exact ha
  have hb' : b < (gauss1d rexp kw sw).length := by rw [gauss1d_length]; exact hb
  rw [List.getD_eq_getElem _ _ ha', List.getD_eq_getElem _ _ hb']
  exact mul_pos
    (gauss1d_pos rexp hrexp kh hkh sh _ (List.getElem_mem ha'))
    (gauss1d_pos rexp hrexp kw hkw sw _ (List.getElem_mem hb'))

/-- Summing a constant-valued map gives length times the constant. -/
theorem sum_map_const_length {α : Type} (l : List α) (f : α → ℕ) (k : ℕ)
    (h : ∀ x ∈ l, f x = k) : (l.map f).sum = l.length * k := by
  induction l with
  | nil => simp
  | cons x xs ih =>
    rw [List.map_cons, List.sum_cons, h x (by simp),
      ih fun y hy => h y (by simp [hy]), List.length_cons]
    ring

/-- Number of enumerated elements of a rank-4 tensor. -/
theorem elems_length (t : Tensor) :
    t.elems.length = t.size 0 * (t.size 1 * (t.size 2 * t.size 3)) := by
  have inner2 : ∀ n c, ((List.range (t.size 2)).flatMap fun i =>
      (List.range (t.size 3)).map fun j => t.data n c i j).length =
        t.size 2 * t.size 3 := by
    intro n c
    rw [List.length_flatMap]
    rw [sum_map_const_length _ _ (t.size 3)
      (fun i _ => by simp [Function.comp])]
    rw [List.length_range]
  have inner1 : ∀ n, ((List.range (t.size 1)).flatMap fun c =>
      (List.range (t.size 2)).flatMap fun i =>
        (List.range (t.size 3)).map fun j => t.data n c i j).length =
        t.size 1 * (t.size 2 * t.size 3) := by
    intro n
    rw [List.length_flatMap]
    rw [sum_map_const_length _ _ (t.size 2 * t.size 3)
      (fun c _ => by simpa [Function.comp] using inner2 n c)]
    rw [List.length_range]
  unfold Tensor.elems
  rw [List.length_flatMap]
  rw [sum_map_const_length _ _ (t.size 1 * (t.size 2 * t.size 3))
    (fun n _ => by simpa [Function.comp] using inner1 n)]
  rw [List.length_range]

/-- The SSIM index formula evaluates to 1 on the diagonal (pred = target):
with positive stability constants and a nonnegative local variance the
numerator equals the (nonzero) denominator. -/
theorem ssim_diag_formula (S1 S2 C1v C2v : ℚ) (hC1 : 0 < C1v) (hC2 : 0 < C2v)
    (hvar : S1 ^ 2 ≤ S2) :
    (2 * (S1 * S1) + C1v) * (2 * (S2 - S1 * S1) + C2v) /
      ((S1 ^ 2 + S1 ^ 2 + C1v) * (S2 - S1 ^ 2 + (S2 - S1 ^ 2) + C2v)) = 1 := by
  have hd1 : 0 < S1 ^ 2 + S1 ^ 2 + C1v :=
    add_pos_of_nonneg_of_pos (by positivity) hC1
  have hd2 : 0 < S2 - S1 ^ 2 + (S2 - S1 ^ 2) + C2v :=
    add_pos_of_nonneg_of_pos
      (add_nonneg (sub_nonneg.mpr hvar) (sub_nonneg.mpr hvar)) hC2
  have hnum : (2 * (S1 * S1) + C1v) * (2 * (S2 - S1 * S1) + C2v) =
      (S1 ^ 2 + S1 ^ 2 + C1v) * (S2 - S1 ^ 2 + (S2 - S1 ^ 2) + C2v) := by
    ring
  rw [hnum]
  exact div_self (ne_of_gt (mul_pos hd1 hd2))

/-- With identical `pred` and `target`, every in-range entry of the SSIM map
is exactly 1, provided the stability constants are positive. -/
theorem ssimIdx_self_data_one (rexp : ℚ → ℚ) (hrexp : ∀ q, 0 < rexp q)
    (x : Tensor) (kh kw : ℤ) (hkh : 0 < kh) (hkw : 0 < kw) (sh sw : ℚ)
    (C1v C2v : ℚ) (hC1 : 0 < C1v) (hC2 : 0 < C2v)
    (n c i j : ℕ) (hn : n < x.size 0) :
    (ssimIdx rexp x x [kh, kw] [sh, sw] C1v C2v).data n c i j = 1 := by
  simp only [ssimIdx, tmap2_data, tmap_data, tmul_data, tadd_data, tsub_data]
  rw [ssimOut_data_eq rexp x x [kh, kw] [sh, sw] 0 (by norm_num) rfl n c i j hn,
    ssimOut_data_eq rexp x x [kh, kw] [sh, sw] 1 (by norm_num) rfl n c i j hn,
    ssimOut_data_eq rexp x x [kh, kw] [sh, sw] 2 (by norm_num) rfl n c i j hn,
    ssimOut_data_eq rexp x x [kh, kw] [sh, sw] 3 (by norm_num) rfl n c i j hn,
    ssimOut_data_eq rexp x x [kh, kw] [sh, sw] 4 (by norm_num) rfl n c i j hn]
  simp only [List.getD_cons_zero, List.getD_cons_succ, tmul_data]
  have hsum := gauss_product_sum_one rexp hrexp kh kw hkh hkw sh sw
  have hw : ∀ a ∈ Finset.range kh.toNat, ∀ b ∈ Finset.range kw.toNat,
      0 ≤ (gauss1d rexp kh sh).getD a 0 * (gauss1d rexp kw sw).getD b 0 :=
    fun a ha b hb => (gauss_product_pos rexp hrexp kh kw hkh hkw sh sw a b
      (Finset.mem_range.mp ha) (Finset.mem_range.mp hb)).le
  have hvar := window_jensen kh.toNat kw.toNat
    (fun a b => (gauss1d rexp kh sh).getD a 0 * (gauss1d rexp kw sw).getD b 0)
    (fun a b => x.data n c (i + a) (j + b)) hw hsum
  exact ssim_diag_formula _ _ C1v C2v hC1 hC2 hvar

/-- A list all of whose entries are 1 sums to its length. -/
theorem sum_of_all_one (l : List ℚ) (h : ∀ y ∈ l, y = 1) :
    l.sum = (l.length : ℚ) := by
  induction l with
  | nil => simp
  | cons a t ih =>
    rw [List.sum_cons, h a (by simp), ih fun y hy => h y (by simp [hy]),
      List.length_cons]
    push_cast
    ring

/-- C1 (amended): for every 4-D tensor `x` whose spatial extent carries the
default 11x11 window and which is not constant (`min x < max x`, so the
auto-derived `data_range` is positive), `ssim(x, x)` with default parameters
is exactly 1 in exact arithmetic.  The non-constancy is necessary: a constant
tensor drives `data_range`, hence both stability constants, to 0 and the
per-pixel index degenerates to `0/0` (see the counterexample). -/
theorem ssim_self_eq_one (rexp : ℚ → ℚ) (x : Tensor)
    (hrexp : ∀ q, 0 < rexp q) (h4 : x.shape.length = 4)
    (_hH : 11 ≤ x.size 2) (_hW : 11 ≤ x.size 3)
    (hnc : tmin x < tmax x) :
    ssim rexp x x [11, 11] [3 / 2, 3 / 2] Reduction.elementwise_mean Option.none
      (1 / 100) (3 / 100) = Except.ok [1] := by
  simp only [ssim]
  rw [if_neg (not_not_intro rfl), if_neg (not_not_intro rfl),
    if_neg (by push_neg; exact ⟨h4, h4⟩),
    if_neg (by norm_num),
    if_neg (by decide),
    if_neg (by norm_num)]
  have hdr : ssimDataRange x x Option.none = tmax x - tmin x := by
    simp [ssimDataRange]
  rw [hdr]
  have hr : 0 < tmax x - tmin x := sub_pos.mpr hnc
  have hC1 : 0 < ((1 : ℚ) / 100 * (tmax x - tmin x)) ^ 2 :=
    pow_pos (mul_pos (by norm_num) hr) 2
  have hC2 : 0 < ((3 : ℚ) / 100 * (tmax x - tmin x)) ^ 2 :=
    pow_pos (mul_pos (by norm_num) hr) 2
  have hall : ∀ y ∈ (ssimIdx rexp x x [11, 11] [3 / 2, 3 / 2]
      ((1 / 100 * (tmax x - tmin x)) ^ 2)
      ((3 / 100 * (tmax x - tmin x)) ^ 2)).elems, y = 1 := by
    intro y hy
    simp only [Tensor.elems, List.mem_flatMap, List.mem_map, List.mem_range] at hy
    obtain ⟨n, hn, c, _, i, _, j, _, rfl⟩ := hy
    have hs0 : (ssimIdx rexp x x [11, 11] [3 / 2, 3 / 2]
        ((1 / 100 * (tmax x - tmin x)) ^ 2)
        ((3 / 100 * (tmax x - tmin x)) ^ 2)).size 0 = x.size 0 := by
      simp [Tensor.size, ssimIdx_shape]
    exact ssimIdx_self_data_one rexp hrexp x 11 11 (by norm_num) (by norm_num)
      (3 / 2) (3 / 2) _ _ hC1 hC2 n c i j (hs0 ▸ hn)
  have hne : x.elems ≠ [] := by
    intro h
    simp [tmin, tmax, h, listMax, listMin] at hnc
  have hx0 : x.elems.length ≠ 0 := fun h => hne (List.length_eq_zero.mp h)
  rw [elems_length] at hx0
  have hs1 : x.size 0 ≠ 0 := by
    intro h
    exact hx0 (by simp [h])
  have hs2 : x.size 1 ≠ 0 := by
    intro h
    exact hx0 (by simp [h])
  have hidxlen : (ssimIdx rexp x x [11, 11] [3 / 2, 3 / 2]
      ((1 / 100 * (tmax x - tmin x)) ^ 2)
      ((3 / 100 * (tmax x - tmin x)) ^ 2)).elems.length ≠ 0 := by
    rw [elems_length]
    have e0 : (ssimIdx rexp x x [11, 11] [3 / 2, 3 / 2]
        ((1 / 100 * (tmax x - tmin x)) ^ 2)
        ((3 / 100 * (tmax x - tmin x)) ^ 2)).size 0 = x.size 0 := by
      simp [Tensor.size, ssimIdx_shape]
    have e1 : (ssimIdx rexp x x [11, 11] [3 / 2, 3 / 2]
        ((1 / 100 * (tmax x - tmin x)) ^ 2)
        ((3 / 100 * (tmax x - tmin x)) ^ 2)).size 1 = x.size 1 := by
      simp [Tensor.size, ssimIdx_shape]
    have e2 : (ssimIdx rexp x x [11, 11] [3 / 2, 3 / 2]
        ((1 / 100 * (tmax x - tmin x)) ^ 2)
        ((3 / 100 * (tmax x - tmin x)) ^ 2)).size 2 =
        x.size 2 - (11 : ℤ).toNat + 1 := by
      simp [Tensor.size, ssimIdx_shape]
    have e3 : (ssimIdx rexp x x [11, 11] [3 / 2, 3 / 2]
        ((1 / 100 * (tmax x - tmin x)) ^ 2)
        ((3 / 100 * (tmax x - tmin x)) ^ 2)).size 3 =
        x.size 3 - (11 : ℤ).toNat + 1 := by
      simp [Tensor.size, ssimIdx_shape]
    rw [e0, e1, e2, e3]
    simp [Nat.mul_eq_zero, hs1, hs2]
  simp only [reduce]
  rw [sum_of_all_one _ hall, div_self (Nat.cast_ne_zero.mpr hidxlen)]

/-- A non-constant 1x1x11x11 image (one dark corner pixel). -/
def rampImage : Tensor :=
  ⟨[1, 1, 11, 11], DType.float32, 0, fun n c i j => if n + c + i + j = 0 then 0 else 1⟩

/-- An accumulator never exceeds a `max` fold started from it. -/
theorem foldl_max_le_init (l : List ℚ) : ∀ acc : ℚ, acc ≤ l.foldl max acc := by
  induction l with
  | nil => intro acc; exact le_refl _
  | cons x t ih => intro acc; exact le_trans (le_max_left acc x) (ih (max acc x))

/-- Every member of a list is bounded by a `max` fold over it. -/
theorem mem_le_foldl_max (l : List ℚ) : ∀ (acc y : ℚ), y ∈ l → y ≤ l.foldl max acc := by
  induction l with
  | nil => intro acc y hy; simp at hy
  | cons x t ih =>
    intro acc y hy
    rcases List.mem_cons.mp hy with rfl | hy'
    · exact le_trans (le_max_right acc y) (foldl_max_le_init t _)
    · exact ih _ y hy'

/-- Every member of a list bounds the engine max from below. -/
theorem le_listMax (l : List ℚ) (y : ℚ) (hy : y ∈ l) : y ≤ listMax l :=
  mem_le_foldl_max l _ y hy

/-- A `min` fold never exceeds its accumulator. -/
theorem foldl_min_le_init (l : List ℚ) : ∀ acc : ℚ, l.foldl min acc ≤ acc := by
  induction l with
  | nil => intro acc; exact le_refl _
  | cons x t ih => intro acc; exact le_trans (ih (min acc x)) (min_le_left acc x)

/-- A `min` fold is bounded by every member of the list. -/
theorem foldl_min_le_mem (l : List ℚ) : ∀ (acc y : ℚ), y ∈ l → l.foldl min acc ≤ y := by
  induction l with
  | nil => intro acc y hy; simp at hy
  | cons x t ih =>
    intro acc y hy
    rcases List.mem_cons.mp hy with rfl | hy'
    · exact le_trans (foldl_min_le_init t _) (min_le_right acc y)
    · exact ih _ y hy'

/-- The engine min is below every member. -/
theorem listMin_le (l : List ℚ) (y : ℚ) (hy : y ∈ l) : listMin l ≤ y :=
  foldl_min_le_mem l _ y hy

/-- Witness for the amended C1 at the non-constant `rampImage`. -/
theorem ssim_self_eq_one_witness :
    ((∀ q : ℚ, 0 < (fun _ : ℚ => (1 : ℚ)) q) ∧ rampImage.shape.length = 4 ∧
      11 ≤ rampImage.size 2 ∧ 11 ≤ rampImage.size 3 ∧
      tmin rampImage < tmax rampImage) ∧
    ssim (fun _ : ℚ => (1 : ℚ)) rampImage rampImage [11, 11] [3 / 2, 3 / 2]
      Reduction.elementwise_mean Option.none (1 / 100) (3 / 100) = Except.ok [1] := by
  have h0 : (0 : ℚ) ∈ rampImage.elems := by
    simp only [Tensor.elems, List.mem_flatMap, List.mem_map, List.mem_range]
    exact ⟨0, by norm_num [rampImage, Tensor.size], 0,
      by norm_num [rampImage, Tensor.size], 0, by norm_num [rampImage, Tensor.size],
      0, by norm_num [rampImage, Tensor.size], by norm_num [rampImage]⟩
  have h1 : (1 : ℚ) ∈ rampImage.elems := by
    simp only [Tensor.elems, List.mem_flatMap, List.mem_map, List.mem_range]
    exact ⟨0, by norm_num [rampImage, Tensor.size], 0,
      by norm_num [rampImage, Tensor.size], 0, by norm_num [rampImage, Tensor.size],
      1, by norm_num [rampImage, Tensor.size], by norm_num [rampImage]⟩
  have hnc : tmin rampImage < tmax rampImage :=
    lt_of_le_of_lt (listMin_le _ _ h0) (lt_of_lt_of_le one_pos (le_listMax _ _ h1))
  exact ⟨⟨fun _ => one_pos, rfl, by decide, by decide, hnc⟩,
    ssim_self_eq_one (fun _ : ℚ => (1 : ℚ)) rampImage (fun _ => one_pos) rfl
      (by decide) (by decide) hnc⟩

/-- The constant-zero 1x1x11x11 image of the C1 counterexample. -/
def zeroImage : Tensor := ⟨[1, 1, 11, 11], DType.float32, 0, fun _ _ _ _ => 0⟩

/-- Folding `max` from 0 over zeros stays 0. -/
theorem foldl_max_zero (n : ℕ) :
    List.foldl max (0 : ℚ) (List.replicate n 0) = 0 := by
  induction n with
  | zero => rfl
  | succ m ih =>
    rw [List.replicate_succ, List.foldl_cons, max_self]
    exact ih

/-- Folding `min` from 0 over zeros stays 0. -/
theorem foldl_min_zero (n : ℕ) :
    List.foldl min (0 : ℚ) (List.replicate n 0) = 0 := by
  induction n with
  | zero => rfl
  | succ m ih =>
    rw [List.replicate_succ, List.foldl_cons, min_self]
    exact ih

/-- The engine max of an all-zero tensor list is 0. -/
theorem listMax_replicate_zero (n : ℕ) : listMax (List.replicate n (0 : ℚ)) = 0 := by
  cases n with
  | zero => rfl
  | succ m =>
    rw [listMax, List.replicate_succ]
    show List.foldl max (((0 : ℚ) :: List.replicate m 0).headD 0)
      ((0 : ℚ) :: List.replicate m 0) = 0
    rw [List.headD_cons, List.foldl_cons, max_self]
    exact foldl_max_zero m

/-- The engine min of an all-zero tensor list is 0. -/
theorem listMin_replicate_zero (n : ℕ) : listMin (List.replicate n (0 : ℚ)) = 0 := by
  cases n with
  | zero => rfl
  | succ m =>
    rw [listMin, List.replicate_succ]
    show List.foldl min (((0 : ℚ) :: List.replicate m 0).headD 0)
      ((0 : ℚ) :: List.replicate m 0) = 0
    rw [List.headD_cons, List.foldl_cons, min_self]
    exact foldl_min_zero m

/-- Counterexample to C1 as stated: the constant (all-zero) image passes every
validation check of `ssim`, yet `ssim(x, x)` is not approximately 1.  The
auto-derived `data_range` is 0, so `C1 = C2 = 0` and every per-pixel index is
the indeterminate `0/0` — `NaN` in the floating-point engine, the junk value 0
in this exact embedding; under either semantics the result is not 1. -/
theorem ssim_self_const_zero :
    ssim (fun _ : ℚ => (1 : ℚ)) zeroImage zeroImage [11, 11] [3 / 2, 3 / 2]
      Reduction.elementwise_mean Option.none (1 / 100) (3 / 100) =
      Except.ok [0] := by
  simp only [ssim]
  rw [if_neg (not_not_intro rfl), if_neg (not_not_intro rfl),
    if_neg (by push_neg; exact ⟨rfl, rfl⟩),
    if_neg (by norm_num),
    if_neg (by decide),
    if_neg (by norm_num)]
  have helz : ∀ y ∈ zeroImage.elems, y = 0 := by
    intro y hy
    simp only [Tensor.elems, List.mem_flatMap, List.mem_map, List.mem_range] at hy
    obtain ⟨n, _, c, _, i, _, j, _, rfl⟩ := hy
    rfl
  have hz : zeroImage.elems = List.replicate zeroImage.elems.length 0 :=
    List.eq_replicate_of_mem helz
  have hmax : tmax zeroImage = 0 := by
    rw [tmax, hz]
    exact listMax_replicate_zero _
  have hmin : tmin zeroImage = 0 := by
    rw [tmin, hz]
    exact listMin_replicate_zero _
  have hdr0 : ssimDataRange zeroImage zeroImage Option.none = 0 := by
    simp [ssimDataRange, hmax, hmin]
  rw [hdr0,
    show ((1 : ℚ) / 100 * 0) ^ 2 = 0 from by norm_num,
    show ((3 : ℚ) / 100 * 0) ^ 2 = 0 from by norm_num]
  have hallz : ∀ y ∈ (ssimIdx (fun _ : ℚ => (1 : ℚ)) zeroImage zeroImage
      [11, 11] [3 / 2, 3 / 2] 0 0).elems, y = 0 := by
    intro y hy
    simp only [Tensor.elems, List.mem_flatMap, List.mem_map, List.mem_range] at hy
    obtain ⟨n, hn, c, _, i, _, j, _, rfl⟩ := hy
    have hs0 : (ssimIdx (fun _ : ℚ => (1 : ℚ)) zeroImage zeroImage
        [11, 11] [3 / 2, 3 / 2] 0 0).size 0 = zeroImage.size 0 := by
      simp [Tensor.size, ssimIdx_shape]
    have hn' : n < zeroImage.size 0 := hs0 ▸ hn
    simp only [ssimIdx, tmap2_data, tmap_data, tmul_data, tadd_data, tsub_data]
    rw [ssimOut_data_eq _ zeroImage zeroImage [11, 11] [3 / 2, 3 / 2] 0
        (by norm_num) rfl n c i j hn',
      ssimOut_data_eq _ zeroImage zeroImage [11, 11] [3 / 2, 3 / 2] 1
        (by norm_num) rfl n c i j hn',
      ssimOut_data_eq _ zeroImage zeroImage [11, 11] [3 / 2, 3 / 2] 2
        (by norm_num) rfl n c i j hn',
      ssimOut_data_eq _ zeroImage zeroImage [11, 11] [3 / 2, 3 / 2] 3
        (by norm_num) rfl n c i j hn',
      ssimOut_data_eq _ zeroImage zeroImage [11, 11] [3 / 2, 3 / 2] 4
        (by norm_num) rfl n c i j hn']
    simp only [List.getD_cons_zero, List.getD_cons_succ, tmul_data]
    have hzero : ∀ (m c' i' j' : ℕ), zeroImage.data m c' i' j' = 0 := fun _ _ _ _ => rfl
    simp [hzero]
  have hsumz : (ssimIdx (fun _ : ℚ => (1 : ℚ)) zeroImage zeroImage
      [11, 11] [3 / 2, 3 / 2] 0 0).elems.sum = 0 := List.sum_eq_zero hallz
  simp only [reduce]
  rw [hsumz, zero_div]
